import Mathlib

/-!
Verification of the sforce2flowdock core against its natural-language
specification.  The Python sources are shallowly embedded: the pure parts
(`util.getNested`, the classification loop of `SClient.getOpportunityChanges`,
the pagination loop of `SClient.getCompanyChatter`, and the orchestration in
`s2f.postNewAndModifiedOpportunities` / `s2f.postNewActivity`) become Lean
functions over an explicit JSON-like value type; network fetches and file
loads become function parameters and explicit load-result values.
-/

namespace S2F

/-! ## JSON values (decoded JSON, as produced by Python `json.load`) -/

mutual

/-- A decoded JSON value: Python `None`/`bool`/`int`/`str`/`dict`.
Numbers are modelled as integers (no claim here depends on float values). -/
inductive JVal where
  | null : JVal
  | bool (b : Bool) : JVal
  | num (n : Int) : JVal
  | str (s : String) : JVal
  | obj (o : JObj) : JVal
deriving DecidableEq, Repr

/-- The field list of a JSON object, in insertion order (Python dicts keep
insertion order; keys are unique in any dict produced by Python). -/
inductive JObj where
  | nil : JObj
  | cons (key : String) (val : JVal) (rest : JObj) : JObj
deriving DecidableEq, Repr

end

/-- `o[key]` lookup on a JSON object: first matching key. -/
def JObj.get : JObj → String → Option JVal
  | .nil, _ => none
  | .cons k v r, key => if k = key then some v else JObj.get r key

/-! ## util.getNested (src/s2f/util.py lines 37-56) -/

/-- Python `s.split(".")` on the character list: split at every separator,
keeping empty pieces; the empty string splits to one empty piece. -/
def pySplitCharList (c : Char) : List Char → List (List Char)
  | [] => [[]]
  | x :: xs =>
    let r := pySplitCharList c xs
    if x = c then [] :: r
    else
      match r with
      | [] => [[x]]
      | piece :: rest => (x :: piece) :: rest

/-- Python `dotPath.split(".")`. -/
def pySplitDot (s : String) : List String :=
  (pySplitCharList '.' s.data).map List.asString

/-- The inner recursion `get(obj, fieldsArr, default)` of `util.getNested`:
empty path returns the node; a non-dict node or a missing key returns the
default; otherwise recurse into the field (structural recursion on the
remaining path segments). -/
def getNestedGo (dflt : JVal) : List String → JVal → JVal
  | [], node => node
  | f :: fs, node =>
    match node with
    | JVal.obj o =>
      match o.get f with
      | none => dflt
      | some v => getNestedGo dflt fs v
    | _ => dflt

/-- `util.getNested(dictObj, dotPath, default)`.  Python splits the path on
`.` (an empty path splits to one empty segment) and walks the object.  The
Python `default=None` argument corresponds to passing `JVal.null`. -/
def getNested (dictObj : JVal) (dotPath : String) (dflt : JVal) : JVal :=
  getNestedGo dflt (pySplitDot dotPath) dictObj

/-- Spec-side notion for the claim about `getNested`: resolving a segment
list succeeds exactly when every visited node is a mapping containing the
next segment; returns the stored value. -/
def resolvePath : List String → JVal → Option JVal
  | [], node => some node
  | f :: fs, node =>
    match node with
    | JVal.obj o =>
      match o.get f with
      | none => none
      | some v => resolvePath fs v
    | _ => none

theorem getNestedGo_eq_resolvePath (node : JVal) (fs : List String) (dflt : JVal) :
    getNestedGo dflt fs node = (resolvePath fs node).getD dflt := by
  induction fs generalizing node with
  | nil => rfl
  | cons f fs ih =>
    cases node with
    | obj o =>
      simp only [getNestedGo, resolvePath]
      cases o.get f with
      | none => rfl
      | some v => exact ih v
    | null => rfl
    | bool b => rfl
    | num n => rfl
    | str s => rfl

/-- **C9.** `getNested` returns the default exactly when the dotted path
cannot be fully traversed, and otherwise returns the stored value, even a
stored null; in particular `get({x:{y:5}}, "x.y.z", "D") = "D"` and
`get({a: null}, "a", "D") = null`.  The function is total: no exception is
raised for missing data. -/
theorem c9_getNested_default_characterization :
    (∀ (root : JVal) (dotPath : String) (dflt : JVal),
      getNested root dotPath dflt = (resolvePath (pySplitDot dotPath) root).getD dflt)
    ∧ getNested (JVal.obj (.cons "x" (JVal.obj (.cons "y" (JVal.num 5) .nil)) .nil))
        "x.y.z" (JVal.str "D") = JVal.str "D"
    ∧ getNested (JVal.obj (.cons "a" JVal.null .nil)) "a" (JVal.str "D") = JVal.null := by
  refine ⟨fun root dotPath dflt => getNestedGo_eq_resolvePath root _ dflt, ?_, ?_⟩ <;> rfl

/-! ## Opportunity entities (shape produced by `SClient.getOpportunities`,
src/s2f/sforce.py lines 443-465: `fmtObj`) -/

/-- An opportunity record, with exactly the fields `fmtObj` produces.  `Id`
is the stable string identifier; every other field is an arbitrary JSON
value (string, number, bool or null as delivered by the API). -/
structure Entity where
  Id : String
  Name : JVal
  Description : JVal
  AccountName : JVal
  OwnerName : JVal
  StageName : JVal
  Amount : JVal
  Probability : JVal
  CloseDate : JVal
  TypeOfSales : JVal
  AvgHourPrice : JVal
  FutuTeam : JVal
  IsClosed : JVal
  IsWon : JVal
  CreatedDate : JVal
  CreatedByName : JVal
  LastModifiedDate : JVal
  LastModifiedByName : JVal
deriving DecidableEq, Repr

/-- The entity as the JSON object (Python dict) it is in the source, with
fields in `fmtObj` order. -/
def Entity.toJVal (e : Entity) : JVal :=
  JVal.obj
    (.cons "Id" (JVal.str e.Id)
    (.cons "Name" e.Name
    (.cons "Description" e.Description
    (.cons "AccountName" e.AccountName
    (.cons "OwnerName" e.OwnerName
    (.cons "StageName" e.StageName
    (.cons "Amount" e.Amount
    (.cons "Probability" e.Probability
    (.cons "CloseDate" e.CloseDate
    (.cons "TypeOfSales" e.TypeOfSales
    (.cons "AvgHourPrice" e.AvgHourPrice
    (.cons "FutuTeam" e.FutuTeam
    (.cons "IsClosed" e.IsClosed
    (.cons "IsWon" e.IsWon
    (.cons "CreatedDate" e.CreatedDate
    (.cons "CreatedByName" e.CreatedByName
    (.cons "LastModifiedDate" e.LastModifiedDate
    (.cons "LastModifiedByName" e.LastModifiedByName .nil))))))))))))))))))

/-! ## Python dicts keyed by opportunity id -/

/-- A Python dict mapping opportunity ids to entities, in insertion order. -/
abbrev Dict := List (String × Entity)

/-- `d[k]` / `k in d`: first matching key. -/
def dictGet : Dict → String → Option Entity
  | [], _ => none
  | (k, v) :: rest, key => if k = key then some v else dictGet rest key

/-- `d[k] = v`: replace the value at an existing key in place (keeping the
dict order), else append the new binding — Python dict assignment. -/
def dictSet : Dict → String → Entity → Dict
  | [], k, v => [(k, v)]
  | (k', v') :: rest, k, v =>
    if k' = k then (k, v) :: rest else (k', v') :: dictSet rest k v

/-- `list(d.values())`. -/
def dictValues (d : Dict) : List Entity := d.map Prod.snd

/-- `{op["Id"]: op for op in ops}` (src/s2f/s2f.py line 211). -/
def dictOfOps (ops : List Entity) : Dict :=
  ops.foldl (fun d op => dictSet d op.Id op) []

/-! ## SClient.getOpportunityChanges (src/s2f/sforce.py lines 467-506)

The network fetch `incoming = self.getOpportunities(minModified=...)` is
abstracted: the freshly fetched, most-recently-modified-first list is a
parameter of the embedding, which covers the classification loop of lines
481-506 exactly. -/

/-- The field names of `OPPORTUNITY_CHANGED_FIELDS` (an `OrderedDict`;
only the keys matter to the change test), src/s2f/sforce.py lines 25-39. -/
def OPPORTUNITY_CHANGED_FIELDS : List String :=
  ["Name", "Description", "AccountName", "OwnerName", "StageName", "Amount",
   "Probability", "CloseDate", "TypeOfSales", "AvgHourPrice", "FutuTeam",
   "IsClosed", "IsWon"]

/-- `opHasChanged(v1, v2)`: true when any monitored field differs, each side
read with `util.getNested` (default `None`). -/
def opHasChanged (v1 v2 : Entity) : Bool :=
  OPPORTUNITY_CHANGED_FIELDS.any fun f =>
    getNested v1.toJVal f JVal.null != getNested v2.toJVal f JVal.null

/-- Pointwise update of the `teamOps` counters
(`teamOps[team] = teamOps.get(team, 0) + 1`; the Python dict of counters
with `.get(team, 0)` is modelled as a total function defaulting to 0). -/
def bumpTeam (f : JVal → Int) (team : JVal) : JVal → Int :=
  fun t => if t = team then f team + 1 else f t

/-- Loop state of the classification loop: the merged cache being built,
the per-team counters and the two report lists. -/
structure DetectState where
  allOps : Dict
  teamOps : JVal → Int
  newOps : List Entity
  changedOps : List Entity

/-- One iteration of the `for op in incoming` loop (lines 492-504) for an
integer quota `m`: if the team counter is below the quota, classify the
entity as new (id unseen) or changed (a monitored field differs) and count
it, else leave it unclassified; in every case upsert it into the cache. -/
def detectStep (m : Int) (st : DetectState) (op : Entity) : DetectState :=
  let opId := op.Id
  let team := op.FutuTeam
  let st1 :=
    if st.teamOps team < m then
      match dictGet st.allOps opId with
      | none =>
        { st with teamOps := bumpTeam st.teamOps team, newOps := st.newOps ++ [op] }
      | some old =>
        if opHasChanged old op then
          { st with teamOps := bumpTeam st.teamOps team,
                    changedOps := st.changedOps ++ [op] }
        else st
    else st
  { st1 with allOps := dictSet st1.allOps opId op }

/-- The classification loop for a set integer quota. -/
def detectCore (m : Int) (ops : List Entity) (st : DetectState) : DetectState :=
  ops.foldl (detectStep m) st

/-- The classification loop with the quota as passed by the caller
(`maxTeamItems`, possibly `None`).  Each iteration first evaluates
`teamOps.get(team, 0) < maxTeamItems`: in Python 3 comparing an `int`
against `None` raises `TypeError`, which aborts the call. -/
def detectLoopE (maxTeamItems : Option Int) :
    List Entity → DetectState → Except String DetectState
  | [], st => .ok st
  | op :: rest, st =>
    match maxTeamItems with
    | none => .error "TypeError: int < NoneType"
    | some m => detectLoopE maxTeamItems rest (detectStep m st op)

/-- `getOpportunityChanges(knownOpsSet, maxTeamItems)` after the fetch:
build the merged cache on a copy of the dict given by the caller, run the
classification loop, and return
`list(allOps.values()), newOps, changedOps`. -/
def getOpportunityChanges (knownOpsSet : Dict) (incoming : List Entity)
    (maxTeamItems : Option Int) :
    Except String (List Entity × List Entity × List Entity) :=
  match detectLoopE maxTeamItems incoming ⟨knownOpsSet, fun _ => 0, [], []⟩ with
  | .error e => .error e
  | .ok st => .ok (dictValues st.allOps, st.newOps, st.changedOps)

theorem detectLoopE_some (m : Int) (ops : List Entity) (st : DetectState) :
    detectLoopE (some m) ops st = .ok (detectCore m ops st) := by
  induction ops generalizing st with
  | nil => rfl
  | cons op rest ih => simpa [detectLoopE, detectCore] using ih (detectStep m st op)

/-- Sample opportunity for concrete runs: given id, team and name, all other
fields null. -/
def mkOp (id : String) (team : JVal) (name : JVal) : Entity :=
  ⟨id, name, .null, .null, .null, .null, .null, .null, .null, .null, .null,
   team, .null, .null, .null, .null, .null, .null⟩

/-! ## C1: partition quota -/

/-- Number of entities in `l` whose partition (team) key is `team`. -/
def countTeam (l : List Entity) (team : JVal) : Nat :=
  l.countP fun e => e.FutuTeam == team

theorem countTeam_append (l l' : List Entity) (team : JVal) :
    countTeam (l ++ l') team = countTeam l team + countTeam l' team := by
  simp [countTeam, List.countP_append]

theorem countTeam_singleton (op : Entity) (team : JVal) :
    countTeam [op] team = if op.FutuTeam = team then 1 else 0 := by
  by_cases h : op.FutuTeam = team <;> simp [countTeam, List.countP_cons, h]

/-- The team counters always equal the number of classified (new or
changed) entities per team, and never exceed the quota. -/
theorem detectStep_team_inv (m : Int) (st : DetectState) (op : Entity)
    (h : ∀ t, st.teamOps t = (countTeam st.newOps t : Int) + (countTeam st.changedOps t : Int)
        ∧ st.teamOps t ≤ m) :
    ∀ t, (detectStep m st op).teamOps t
        = (countTeam (detectStep m st op).newOps t : Int)
          + (countTeam (detectStep m st op).changedOps t : Int)
      ∧ (detectStep m st op).teamOps t ≤ m := by
  intro t
  unfold detectStep
  by_cases hq : st.teamOps op.FutuTeam < m
  · simp only [hq, if_true]
    cases hg : dictGet st.allOps op.Id with
    | none =>
      rcases eq_or_ne t op.FutuTeam with heq | heq
      · subst heq
        obtain ⟨ht1, ht2⟩ := h op.FutuTeam
        simp [bumpTeam, countTeam_append, countTeam_singleton]
        omega
      · obtain ⟨ht1, ht2⟩ := h t
        simp only [bumpTeam, if_neg heq, countTeam_append, countTeam_singleton,
          if_neg (Ne.symm heq)]
        omega
    | some old =>
      by_cases hch : opHasChanged old op
      · simp only [hch, if_true]
        rcases eq_or_ne t op.FutuTeam with heq | heq
        · subst heq
          obtain ⟨ht1, ht2⟩ := h op.FutuTeam
          simp [bumpTeam, countTeam_append, countTeam_singleton]
          omega
        · obtain ⟨ht1, ht2⟩ := h t
          simp only [bumpTeam, if_neg heq, countTeam_append, countTeam_singleton,
            if_neg (Ne.symm heq)]
          omega
      · simp only [hch, if_false]
        exact h t
  · simp only [hq, if_false]
    exact h t

theorem detectCore_team_inv (m : Int) (ops : List Entity) (st : DetectState)
    (h : ∀ t, st.teamOps t = (countTeam st.newOps t : Int) + (countTeam st.changedOps t : Int)
        ∧ st.teamOps t ≤ m) :
    ∀ t, (detectCore m ops st).teamOps t
        = (countTeam (detectCore m ops st).newOps t : Int)
          + (countTeam (detectCore m ops st).changedOps t : Int)
      ∧ (detectCore m ops st).teamOps t ≤ m := by
  induction ops generalizing st with
  | nil => exact h
  | cons op rest ih =>
    simpa [detectCore] using ih (detectStep m st op) (detectStep_team_inv m st op h)

/-- **C1.** For every known cache, incoming list and set quota `k` (a
nonnegative count; a negative quota would be degenerate), the entities the
classification loop of `getOpportunityChanges` reports as new plus changed
within any one team are at most `k`, and the team counter counts exactly
the classified entities — skipped and merely-cached entities are never
counted. -/
theorem c1_partition_quota (known : Dict) (incoming : List Entity) (k : Nat)
    (st' : DetectState) (team : JVal)
    (h : detectLoopE (some (k : Int)) incoming ⟨known, fun _ => 0, [], []⟩ = .ok st') :
    countTeam st'.newOps team + countTeam st'.changedOps team ≤ k
    ∧ st'.teamOps team
      = (countTeam st'.newOps team : Int) + (countTeam st'.changedOps team : Int) := by
  rw [detectLoopE_some] at h
  injection h with h
  subst h
  have hinv := detectCore_team_inv (k : Int) incoming ⟨known, fun _ => 0, [], []⟩
    (fun t => ⟨by simp [countTeam], by positivity⟩) team
  exact ⟨by omega, hinv.1⟩

/-- Witness for C1: one incoming entity, quota 1. -/
theorem c1_partition_quota_witness :
    countTeam (detectCore 1 [mkOp "1" (JVal.str "T") (JVal.str "A")]
        ⟨[], fun _ => 0, [], []⟩).newOps (JVal.str "T")
      + countTeam (detectCore 1 [mkOp "1" (JVal.str "T") (JVal.str "A")]
        ⟨[], fun _ => 0, [], []⟩).changedOps (JVal.str "T") ≤ 1
    ∧ (detectCore 1 [mkOp "1" (JVal.str "T") (JVal.str "A")]
        ⟨[], fun _ => 0, [], []⟩).teamOps (JVal.str "T")
      = (countTeam (detectCore 1 [mkOp "1" (JVal.str "T") (JVal.str "A")]
          ⟨[], fun _ => 0, [], []⟩).newOps (JVal.str "T") : Int)
        + (countTeam (detectCore 1 [mkOp "1" (JVal.str "T") (JVal.str "A")]
          ⟨[], fun _ => 0, [], []⟩).changedOps (JVal.str "T") : Int) :=
  c1_partition_quota [] [mkOp "1" (JVal.str "T") (JVal.str "A")] 1 _ (JVal.str "T")
    (detectLoopE_some 1 _ _)

/-! ## C4: unset quota -/

/-- State of the quota-free comparator loop. -/
structure NoQuotaState where
  allOps : Dict
  newOps : List Entity
  changedOps : List Entity

/-- One iteration of the classification loop with the quota test removed:
every incoming entity whose id is unseen or whose monitored fields differ
is classified; the upsert is unchanged. -/
def detectStepNoQuota (st : NoQuotaState) (op : Entity) : NoQuotaState :=
  let st1 :=
    match dictGet st.allOps op.Id with
    | none => { st with newOps := st.newOps ++ [op] }
    | some old =>
      if opHasChanged old op then { st with changedOps := st.changedOps ++ [op] }
      else st
  { st1 with allOps := dictSet st1.allOps op.Id op }

/-- The classification loop with no per-team bound: comparator for the
amended C4. -/
def detectNoQuota (ops : List Entity) (st : NoQuotaState) : NoQuotaState :=
  ops.foldl detectStepNoQuota st

theorem detectStep_unbounded (m : Int) (st : DetectState) (op : Entity)
    (hq : st.teamOps op.FutuTeam < m) :
    detectStepNoQuota ⟨st.allOps, st.newOps, st.changedOps⟩ op
      = ⟨(detectStep m st op).allOps, (detectStep m st op).newOps,
         (detectStep m st op).changedOps⟩ := by
  unfold detectStep detectStepNoQuota
  simp only [hq, if_true]
  cases dictGet st.allOps op.Id with
  | none => rfl
  | some old => by_cases hch : opHasChanged old op <;> simp [hch]

theorem detectStep_teamOps_le (m : Int) (st : DetectState) (op : Entity) (t : JVal) :
    (detectStep m st op).teamOps t ≤ st.teamOps t + 1 := by
  unfold detectStep
  by_cases hq : st.teamOps op.FutuTeam < m
  · simp only [hq, if_true]
    cases dictGet st.allOps op.Id with
    | none =>
      by_cases heq : t = op.FutuTeam
      · subst heq; simp [bumpTeam]
      · simp [bumpTeam, heq]
    | some old =>
      by_cases hch : opHasChanged old op
      · by_cases heq : t = op.FutuTeam
        · subst heq; simp [hch, bumpTeam]
        · simp [hch, bumpTeam, heq]
      · simp [hch]
  · simp [hq]

/-- With a quota at least the length of the incoming list, the quota guard
never blocks: the loop agrees with the quota-free loop. -/
theorem detectCore_unbounded (m : Int) (ops : List Entity) (st : DetectState)
    (h : ∀ t, st.teamOps t + (ops.length : Int) ≤ m) :
    detectNoQuota ops ⟨st.allOps, st.newOps, st.changedOps⟩
      = ⟨(detectCore m ops st).allOps, (detectCore m ops st).newOps,
         (detectCore m ops st).changedOps⟩ := by
  induction ops generalizing st with
  | nil => rfl
  | cons op rest ih =>
    have hq : st.teamOps op.FutuTeam < m := by
      have := h op.FutuTeam
      simp only [List.length_cons] at this
      push_cast at this
      omega
    have hr : ∀ t, (detectStep m st op).teamOps t + (rest.length : Int) ≤ m := by
      intro t
      have h1 := detectStep_teamOps_le m st op t
      have h2 := h t
      simp only [List.length_cons] at h2
      push_cast at h2 ⊢
      omega
    have hrec := ih (detectStep m st op) hr
    simp only [detectCore, detectNoQuota, List.foldl_cons] at hrec ⊢
    rw [detectStep_unbounded m st op hq]
    exact hrec

/-- Counterexample to **C4**: with `maxPerPartition` unset (`None`) and a
single incoming entity, `getOpportunityChanges` does not succeed — the
Python 3 comparison `teamOps.get(team, 0) < None` raises `TypeError`. -/
theorem c4_none_quota_counterexample :
    getOpportunityChanges [] [mkOp "1" (JVal.str "T") (JVal.str "A")] none
      = .error "TypeError: int < NoneType" := rfl

/-- **C4 (amended).** Passing `maxTeamItems=None` raises `TypeError` as
soon as one incoming entity is processed; unlimited reporting is instead
obtained with any integer quota at least the length of the incoming list:
then the call succeeds and every incoming entity whose id is unknown or
whose monitored fields differ from the running cache is classified (the
result is exactly that of the quota-free loop). -/
theorem c4_unset_quota_amended (known : Dict) (incoming : List Entity) (k : Int)
    (h : (incoming.length : Int) ≤ k) :
    getOpportunityChanges known incoming (some k)
      = .ok (dictValues (detectNoQuota incoming ⟨known, [], []⟩).allOps,
             (detectNoQuota incoming ⟨known, [], []⟩).newOps,
             (detectNoQuota incoming ⟨known, [], []⟩).changedOps) := by
  unfold getOpportunityChanges
  rw [detectLoopE_some]
  have hnq := detectCore_unbounded k incoming ⟨known, fun _ => 0, [], []⟩
    (fun t => by simpa using h)
  rw [show (⟨known, [], []⟩ : NoQuotaState)
      = ⟨(⟨known, fun _ => 0, [], []⟩ : DetectState).allOps,
         (⟨known, fun _ => 0, [], []⟩ : DetectState).newOps,
         (⟨known, fun _ => 0, [], []⟩ : DetectState).changedOps⟩ from rfl, hnq]

/-- Witness for the amended C4: one incoming entity, quota 1. -/
theorem c4_unset_quota_amended_witness :
    getOpportunityChanges [] [mkOp "1" (JVal.str "T") (JVal.str "A")] (some 1)
      = .ok (dictValues (detectNoQuota [mkOp "1" (JVal.str "T") (JVal.str "A")]
               ⟨[], [], []⟩).allOps,
             (detectNoQuota [mkOp "1" (JVal.str "T") (JVal.str "A")]
               ⟨[], [], []⟩).newOps,
             (detectNoQuota [mkOp "1" (JVal.str "T") (JVal.str "A")]
               ⟨[], [], []⟩).changedOps) :=
  c4_unset_quota_amended [] [mkOp "1" (JVal.str "T") (JVal.str "A")] 1 (by decide)

/-! ## Dict lemmas -/

theorem dictGet_dictSet_self (d : Dict) (k : String) (v : Entity) :
    dictGet (dictSet d k v) k = some v := by
  induction d with
  | nil => simp [dictGet, dictSet]
  | cons kv rest ih =>
    obtain ⟨k', v'⟩ := kv
    by_cases h : k' = k <;> simp [dictGet, dictSet, h, ih]

theorem dictGet_dictSet_ne (d : Dict) (k k' : String) (v : Entity) (h : k' ≠ k) :
    dictGet (dictSet d k v) k' = dictGet d k' := by
  induction d with
  | nil => simp [dictGet, dictSet, if_neg (Ne.symm h)]
  | cons kv rest ih =>
    obtain ⟨k0, v0⟩ := kv
    by_cases h0 : k0 = k
    · subst h0
      simp [dictGet, dictSet, if_neg (Ne.symm h)]
    · simp [dictGet, dictSet, h0, ih]

theorem dictGet_dictSet_isSome (d : Dict) (k k' : String) (v : Entity)
    (h : (dictGet d k').isSome) : (dictGet (dictSet d k v) k').isSome := by
  by_cases hk : k' = k
  · subst hk
    simp [dictGet_dictSet_self]
  · rwa [dictGet_dictSet_ne d k k' v hk]

theorem dictSet_of_get_eq (d : Dict) (k : String) (v : Entity)
    (h : dictGet d k = some v) : dictSet d k v = d := by
  induction d with
  | nil => simp [dictGet] at h
  | cons kv rest ih =>
    obtain ⟨k', v'⟩ := kv
    by_cases hk : k' = k
    · subst hk
      simp only [dictGet, if_pos rfl] at h
      injection h with h
      simp [dictSet, h]
    · rw [show dictGet ((k', v') :: rest) k = dictGet rest k from by simp [dictGet, hk]] at h
      simp [dictSet, hk, ih h]

/-- The classification branches never touch the cache: each loop iteration
changes `allOps` exactly by the final upsert. -/
theorem detectStep_allOps (m : Int) (st : DetectState) (op : Entity) :
    (detectStep m st op).allOps = dictSet st.allOps op.Id op := by
  unfold detectStep
  by_cases hq : st.teamOps op.FutuTeam < m
  · simp only [hq, if_true]
    cases dictGet st.allOps op.Id with
    | none => rfl
    | some old => by_cases hch : opHasChanged old op <;> simp [hch]
  · simp [hq]

theorem detectCore_allOps_isSome (m : Int) (ops : List Entity) (st : DetectState)
    (key : String) (h : (dictGet st.allOps key).isSome) :
    (dictGet (detectCore m ops st).allOps key).isSome := by
  induction ops generalizing st with
  | nil => exact h
  | cons op rest ih =>
    simp only [detectCore, List.foldl_cons] at ih ⊢
    exact ih (detectStep m st op)
      (by rw [detectStep_allOps]; exact dictGet_dictSet_isSome _ _ _ _ h)

theorem detectCore_allOps_frame (m : Int) (ops : List Entity) (st : DetectState)
    (key : String) (h : ∀ op ∈ ops, op.Id ≠ key) :
    dictGet (detectCore m ops st).allOps key = dictGet st.allOps key := by
  induction ops generalizing st with
  | nil => rfl
  | cons op rest ih =>
    simp only [detectCore, List.foldl_cons] at ih ⊢
    rw [ih (detectStep m st op) (fun o ho => h o (List.mem_cons_of_mem op ho)),
      detectStep_allOps, dictGet_dictSet_ne]
    exact fun hh => h op (List.mem_cons_self op rest) hh.symm

theorem detectCore_append (m : Int) (xs ys : List Entity) (st : DetectState) :
    detectCore m (xs ++ ys) st = detectCore m ys (detectCore m xs st) := by
  simp [detectCore, List.foldl_append]

/-- After the loop, the entity at the last incoming occurrence of an id is
what the merged cache stores for that id. -/
theorem detectCore_get_last (m : Int) (l1 l2 : List Entity) (op : Entity)
    (st : DetectState) (h2 : ∀ op' ∈ l2, op'.Id ≠ op.Id) :
    dictGet (detectCore m (l1 ++ op :: l2) st).allOps op.Id = some op := by
  rw [show op :: l2 = [op] ++ l2 from rfl, detectCore_append, detectCore_append,
    detectCore_allOps_frame m l2 _ op.Id h2]
  simp only [detectCore, List.foldl_cons, List.foldl_nil]
  rw [detectStep_allOps, dictGet_dictSet_self]

/-- **C3.** Every incoming entity is upserted into the merged cache no
matter how it is classified and no matter the quota: the merged cache
keeps every previously cached id, contains every incoming id, and stores
each incoming id at its latest incoming values (the last occurrence in the
incoming order). -/
theorem c3_cache_complete (known : Dict) (incoming : List Entity) (k : Int)
    (st' : DetectState)
    (h : detectLoopE (some k) incoming ⟨known, fun _ => 0, [], []⟩ = .ok st') :
    (∀ key, (dictGet known key).isSome → (dictGet st'.allOps key).isSome)
    ∧ (∀ op ∈ incoming, (dictGet st'.allOps op.Id).isSome)
    ∧ (∀ l1 op l2, incoming = l1 ++ op :: l2 → (∀ op' ∈ l2, op'.Id ≠ op.Id) →
        dictGet st'.allOps op.Id = some op) := by
  rw [detectLoopE_some] at h
  injection h with h
  subst h
  refine ⟨fun key hk => detectCore_allOps_isSome k incoming _ key hk, ?_, ?_⟩
  · intro op hop
    obtain ⟨l1, l2, rfl⟩ := List.append_of_mem hop
    rw [show op :: l2 = [op] ++ l2 from rfl, detectCore_append, detectCore_append]
    refine detectCore_allOps_isSome k l2 _ op.Id ?_
    simp only [detectCore, List.foldl_cons, List.foldl_nil]
    rw [detectStep_allOps, dictGet_dictSet_self]
    rfl
  · intro l1 op l2 heq h2
    subst heq
    exact detectCore_get_last k l1 l2 op _ h2

/-- Witness for C3: quota 0 (nothing classified), one cached and one
incoming entity; both end up in the merged cache, the incoming one at its
incoming values. -/
theorem c3_cache_complete_witness :
    (dictGet (detectCore 0 [mkOp "1" (JVal.str "T") (JVal.str "A")]
        ⟨[("K", mkOp "K" (JVal.str "T") (JVal.str "B"))], fun _ => 0, [], []⟩).allOps
      "K").isSome
    ∧ dictGet (detectCore 0 [mkOp "1" (JVal.str "T") (JVal.str "A")]
        ⟨[("K", mkOp "K" (JVal.str "T") (JVal.str "B"))], fun _ => 0, [], []⟩).allOps
      "1" = some (mkOp "1" (JVal.str "T") (JVal.str "A")) := by
  have h := c3_cache_complete [("K", mkOp "K" (JVal.str "T") (JVal.str "B"))]
    [mkOp "1" (JVal.str "T") (JVal.str "A")] 0 _ (detectLoopE_some 0 _ _)
  exact ⟨h.1 "K" (by decide),
    h.2.2 [] (mkOp "1" (JVal.str "T") (JVal.str "A")) [] rfl (by simp)⟩

/-! ## C2: applying the detector twice -/

theorem opHasChanged_self (v : Entity) : opHasChanged v v = false := by
  simp [opHasChanged]

/-- An incoming entity already cached at exactly its incoming values is
skipped and leaves the whole loop state unchanged. -/
theorem detectStep_cached (m : Int) (st : DetectState) (op : Entity)
    (h : dictGet st.allOps op.Id = some op) : detectStep m st op = st := by
  unfold detectStep
  by_cases hq : st.teamOps op.FutuTeam < m
  · simp [hq, h, opHasChanged_self, dictSet_of_get_eq _ _ _ h]
  · simp [hq, dictSet_of_get_eq _ _ _ h]

theorem detectCore_cached (m : Int) (ops : List Entity) (st : DetectState)
    (h : ∀ op ∈ ops, dictGet st.allOps op.Id = some op) :
    detectCore m ops st = st := by
  induction ops with
  | nil => rfl
  | cons op rest ih =>
    simp only [detectCore, List.foldl_cons] at ih ⊢
    rw [detectStep_cached m st op (h op (List.mem_cons_self op rest))]
    exact ih (fun o ho => h o (List.mem_cons_of_mem op ho))

/-- With pairwise-distinct incoming ids, the merged cache stores every
incoming entity at its own (incoming) values. -/
theorem detectCore_get_of_nodup (m : Int) (incoming : List Entity) (st : DetectState)
    (hnd : (incoming.map Entity.Id).Nodup) :
    ∀ op ∈ incoming, dictGet (detectCore m incoming st).allOps op.Id = some op := by
  intro op hop
  obtain ⟨l1, l2, rfl⟩ := List.append_of_mem hop
  have hsub : (Entity.Id op :: l2.map Entity.Id).Nodup := by
    refine List.Nodup.sublist ?_ (by simpa using hnd)
    exact List.sublist_append_right (l1.map Entity.Id) _
  have hnotin := (List.nodup_cons.mp hsub).1
  refine detectCore_get_last m l1 l2 op st ?_
  intro op' h' heq
  exact hnotin (heq ▸ List.mem_map_of_mem Entity.Id h')

/-- **C2 (amended).** When the incoming entities have pairwise-distinct ids
(always true of a SOQL result set), feeding the merged cache of one run
back as the known cache of a second run over the same incoming list leaves
the cache unchanged and reports nothing, whatever the quota.  (With
duplicate ids in the incoming list the second call can re-report the
duplicates as changed — see the counterexample.) -/
theorem c2_idempotent_amended (known : Dict) (incoming : List Entity) (k : Int)
    (st1 st2 : DetectState)
    (hnd : (incoming.map Entity.Id).Nodup)
    (h1 : detectLoopE (some k) incoming ⟨known, fun _ => 0, [], []⟩ = .ok st1)
    (h2 : detectLoopE (some k) incoming ⟨st1.allOps, fun _ => 0, [], []⟩ = .ok st2) :
    st2.allOps = st1.allOps ∧ st2.newOps = [] ∧ st2.changedOps = [] := by
  rw [detectLoopE_some] at h1 h2
  injection h1 with h1
  injection h2 with h2
  subst h1
  subst h2
  have hall := detectCore_get_of_nodup k incoming ⟨known, fun _ => 0, [], []⟩ hnd
  have hfix : detectCore k incoming
      ⟨(detectCore k incoming ⟨known, fun _ => 0, [], []⟩).allOps, fun _ => 0, [], []⟩
      = ⟨(detectCore k incoming ⟨known, fun _ => 0, [], []⟩).allOps, fun _ => 0, [], []⟩ :=
    detectCore_cached k incoming _ (fun op hop => hall op hop)
  rw [hfix]
  exact ⟨rfl, rfl, rfl⟩

/-- Witness for the amended C2: one incoming entity, cache fed back. -/
theorem c2_idempotent_amended_witness :
    (detectCore 3 [mkOp "1" (JVal.str "T") (JVal.str "A")]
      ⟨(detectCore 3 [mkOp "1" (JVal.str "T") (JVal.str "A")]
          ⟨[], fun _ => 0, [], []⟩).allOps, fun _ => 0, [], []⟩).allOps
      = (detectCore 3 [mkOp "1" (JVal.str "T") (JVal.str "A")]
          ⟨[], fun _ => 0, [], []⟩).allOps
    ∧ (detectCore 3 [mkOp "1" (JVal.str "T") (JVal.str "A")]
      ⟨(detectCore 3 [mkOp "1" (JVal.str "T") (JVal.str "A")]
          ⟨[], fun _ => 0, [], []⟩).allOps, fun _ => 0, [], []⟩).newOps = []
    ∧ (detectCore 3 [mkOp "1" (JVal.str "T") (JVal.str "A")]
      ⟨(detectCore 3 [mkOp "1" (JVal.str "T") (JVal.str "A")]
          ⟨[], fun _ => 0, [], []⟩).allOps, fun _ => 0, [], []⟩).changedOps = [] :=
  c2_idempotent_amended [] [mkOp "1" (JVal.str "T") (JVal.str "A")] 3 _ _
    (by simp) (detectLoopE_some 3 _ _) (detectLoopE_some 3 _ _)

/-- Counterexample to **C2** as stated: with a duplicated incoming id
(`"X"` carried twice, with different names), the second call over the same
incoming list returns the same merged cache but re-reports both
occurrences as changed, even though the quota (5) never binds. -/
theorem c2_idempotent_counterexample :
    getOpportunityChanges []
      [mkOp "X" (JVal.str "T") (JVal.str "A"), mkOp "X" (JVal.str "T") (JVal.str "B")]
      (some 5)
      = .ok ([mkOp "X" (JVal.str "T") (JVal.str "B")],
             [mkOp "X" (JVal.str "T") (JVal.str "A")],
             [mkOp "X" (JVal.str "T") (JVal.str "B")])
    ∧ getOpportunityChanges [("X", mkOp "X" (JVal.str "T") (JVal.str "B"))]
      [mkOp "X" (JVal.str "T") (JVal.str "A"), mkOp "X" (JVal.str "T") (JVal.str "B")]
      (some 5)
      = .ok ([mkOp "X" (JVal.str "T") (JVal.str "B")],
             [],
             [mkOp "X" (JVal.str "T") (JVal.str "A"), mkOp "X" (JVal.str "T") (JVal.str "B")])
    ∧ [mkOp "X" (JVal.str "T") (JVal.str "A"), mkOp "X" (JVal.str "T") (JVal.str "B")]
      ≠ ([] : List Entity) := by
  exact ⟨rfl, rfl, by simp⟩

/-! ## C10: the dict of the caller is never mutated (heap-instrumented embedding)

Python dicts are mutable objects passed by reference, so the frame claim is
settled on an embedding with an explicit heap of dict objects: had line 489
aliased (`allOps = knownOpsSet`) instead of copied
(`allOps = {k: v for k, v in knownOpsSet.items()}`), the upserts of line
504 would write through the reference held by the caller. -/

/-- A heap of Python dict objects: cell `i` holds the dict referenced by
`i`.  Only the dicts (the mutable objects shared with the caller) live
here. -/
abbrev Heap := List Dict

/-- Dereference (an absent cell reads as an empty dict; never hit by the
theorems, which keep references in range). -/
def heapRead (h : Heap) (r : Nat) : Dict := (h.getD r [])

/-- Write through a reference. -/
def heapWrite (h : Heap) (r : Nat) (d : Dict) : Heap := h.set r d

/-- One loop iteration of lines 492-504 acting on the heap: classify using
the dict at `allRef`, then perform `allOps[opId] = op` as a write through
`allRef`. -/
def detectStepHeap (m : Int) (heap : Heap) (allRef : Nat) (teamOps : JVal → Int)
    (newOps changedOps : List Entity) (op : Entity) :
    Heap × (JVal → Int) × List Entity × List Entity :=
  let allOps := heapRead heap allRef
  let tnc :=
    if teamOps op.FutuTeam < m then
      match dictGet allOps op.Id with
      | none => (bumpTeam teamOps op.FutuTeam, newOps ++ [op], changedOps)
      | some old =>
        if opHasChanged old op then
          (bumpTeam teamOps op.FutuTeam, newOps, changedOps ++ [op])
        else (teamOps, newOps, changedOps)
    else (teamOps, newOps, changedOps)
  (heapWrite heap allRef (dictSet allOps op.Id op), tnc)

/-- The classification loop on the heap. -/
def detectLoopHeap (m : Int) :
    List Entity → Heap → Nat → (JVal → Int) → List Entity → List Entity →
    Heap × (JVal → Int) × List Entity × List Entity
  | [], heap, _, teamOps, newOps, changedOps => (heap, teamOps, newOps, changedOps)
  | op :: rest, heap, allRef, teamOps, newOps, changedOps =>
    let r := detectStepHeap m heap allRef teamOps newOps changedOps op
    detectLoopHeap m rest r.1 allRef r.2.1 r.2.2.1 r.2.2.2

/-- `getOpportunityChanges(knownOpsSet, maxTeamItems)` on the heap: line
489 allocates a fresh cell holding a copy of the dict of the caller, and the
loop writes only through that fresh reference. -/
def getOpportunityChangesHeap (heap : Heap) (knownRef : Nat) (incoming : List Entity)
    (m : Int) : Heap × Nat × (JVal → Int) × List Entity × List Entity :=
  let known := heapRead heap knownRef
  let allRef := heap.length
  let heap1 := heap ++ [known]
  let r := detectLoopHeap m incoming heap1 allRef (fun _ => 0) [] []
  (r.1, allRef, r.2)

theorem detectLoopHeap_frame (m : Int) (ops : List Entity) :
    ∀ (heap : Heap) (allRef : Nat) (teamOps : JVal → Int)
      (newOps changedOps : List Entity) (r : Nat), r ≠ allRef →
      (detectLoopHeap m ops heap allRef teamOps newOps changedOps).1[r]? = heap[r]? := by
  induction ops with
  | nil => intro heap allRef teamOps newOps changedOps r _; rfl
  | cons op rest ih =>
    intro heap allRef teamOps newOps changedOps r hr
    simp only [detectLoopHeap]
    rw [ih _ allRef _ _ _ r hr]
    exact List.getElem?_set_ne (Ne.symm hr)

/-- **C10.** `getOpportunityChanges` never mutates its `knownOpsSet`
argument: after the call the reference held by the caller still holds the
dict it held before — the merged cache is built on a fresh copy. -/
theorem c10_known_not_mutated (heap : Heap) (knownRef : Nat) (incoming : List Entity)
    (m : Int) (h : knownRef < heap.length) :
    (getOpportunityChangesHeap heap knownRef incoming m).1[knownRef]? = heap[knownRef]? := by
  unfold getOpportunityChangesHeap
  rw [detectLoopHeap_frame m incoming _ _ _ _ _ knownRef (Nat.ne_of_lt h)]
  exact List.getElem?_append_left h

/-- Witness for C10: a one-cell heap holding the cache of the caller. -/
theorem c10_known_not_mutated_witness :
    (getOpportunityChangesHeap [[("K", mkOp "K" (JVal.str "T") (JVal.str "B"))]] 0
      [mkOp "1" (JVal.str "T") (JVal.str "A")] 5).1[0]?
      = [[("K", mkOp "K" (JVal.str "T") (JVal.str "B"))]][0]? :=
  c10_known_not_mutated [[("K", mkOp "K" (JVal.str "T") (JVal.str "B"))]] 0
    [mkOp "1" (JVal.str "T") (JVal.str "A")] 5 (by decide)

/-! ## SClient.getCompanyChatter (src/s2f/sforce.py lines 237-277)

The authenticated page fetch `client.get(url).json()` is a parameter
`fetch` returning either the decoded page or a raised exception
(`Except.error`); `urljoin(self._getAPIRootUrl(), url)` is a parameter
`resolveUrl`; `iso8601.parse_date(...).timestamp()` is abstracted by
items carrying their parsed modification timestamp. -/

/-- A chatter feed item: its parsed `modifiedDate` timestamp and an opaque
body. -/
structure SItem where
  modifiedDate : Int
  body : String
deriving DecidableEq, Repr

/-- One decoded feed page: `updatesUrl`, `items` and `nextPageUrl`
(`none` models a missing or falsy next link: Python `None` or the empty
string). -/
structure SPage where
  updatesUrl : String
  items : List SItem
  nextPageUrl : Option String
deriving DecidableEq, Repr

/-- The inner `for item in data["items"]` loop (lines 265-273): under a
hard limit stop as soon as the item cap is reached or the age cutoff has
tripped (the cutoff flag is set before the hard-limit break test);
otherwise append every item, still recording whether some item exceeded
`maxSeconds`. -/
def processItems (now maxSeconds : Int) (maxFeedItems : Nat) (hardLimit : Bool) :
    List SItem → List SItem → Bool → List SItem × Bool
  | [], items, maxSecsExceeded => (items, maxSecsExceeded)
  | item :: rest, items, maxSecsExceeded =>
    if hardLimit && decide (items.length ≥ maxFeedItems) then (items, maxSecsExceeded)
    else
      let exceeded := if now - item.modifiedDate > maxSeconds then true else maxSecsExceeded
      if hardLimit && exceeded then (items, exceeded)
      else processItems now maxSeconds maxFeedItems hardLimit rest (items ++ [item]) exceeded

/-- The `while` loop of lines 257-275, with the loop variables as
arguments.  The loop continues while the url is truthy, the age cutoff has
not tripped, fewer than `maxFeedItems` items are collected and fewer than
`maxPages` pages were retrieved; each iteration fetches one page
(propagating a raised exception), captures `updatesUrl` from the first
page, runs the item loop and follows `nextPageUrl`. -/
def getCompanyChatterLoop (fetch : String → Except String SPage)
    (resolveUrl : String → String) (now maxSeconds : Int)
    (maxFeedItems maxPages : Nat) (hardLimit : Bool)
    (url? : Option String) (items : List SItem) (maxSecsExceeded : Bool)
    (pagesRetrieved : Nat) (updatesUrl : Option String) :
    Except String (List SItem × Option String × Nat) :=
  match url? with
  | none => .ok (items, updatesUrl, pagesRetrieved)
  | some url =>
    if hc : url ≠ "" ∧ maxSecsExceeded = false ∧ items.length < maxFeedItems
        ∧ pagesRetrieved < maxPages then
      match fetch (resolveUrl url) with
      | .error e => .error e
      | .ok data =>
        let updatesUrl1 := if pagesRetrieved = 0 then some data.updatesUrl else updatesUrl
        let r := processItems now maxSeconds maxFeedItems hardLimit data.items items
          maxSecsExceeded
        getCompanyChatterLoop fetch resolveUrl now maxSeconds maxFeedItems maxPages
          hardLimit data.nextPageUrl r.1 r.2 (pagesRetrieved + 1) updatesUrl1
    else .ok (items, updatesUrl, pagesRetrieved)
termination_by maxPages - pagesRetrieved
decreasing_by omega

/-- `getCompanyChatter(url, maxSeconds, maxFeedItems, maxPages, hardLimit)`:
run the loop from the starting url with no items, no cutoff, zero pages
and no `updatesUrl`, and return `(items, updatesUrl)`. -/
def getCompanyChatter (fetch : String → Except String SPage)
    (resolveUrl : String → String) (now maxSeconds : Int)
    (maxFeedItems maxPages : Nat) (hardLimit : Bool) (url : String) :
    Except String (List SItem × Option String) :=
  match getCompanyChatterLoop fetch resolveUrl now maxSeconds maxFeedItems maxPages
      hardLimit (some url) [] false 0 none with
  | .error e => .error e
  | .ok (items, updatesUrl, _) => .ok (items, updatesUrl)

/-! ## C7: pagination is bounded by maxPages -/

/-- With a fetch that never raises, the loop always returns `.ok` and the
final page count (`pagesRetrieved`, incremented exactly once per page
fetch) never exceeds `maxPages`. -/
theorem getCompanyChatterLoop_pages_le (fetch : String → SPage)
    (resolveUrl : String → String) (now maxSeconds : Int)
    (maxFeedItems maxPages : Nat) (hardLimit : Bool) :
    ∀ (n : Nat) (url? : Option String) (items : List SItem) (exc : Bool)
      (p : Nat) (u : Option String), p ≤ maxPages → maxPages - p ≤ n →
      ∃ items1 u1 p1,
        getCompanyChatterLoop (fun s => .ok (fetch s)) resolveUrl now maxSeconds
          maxFeedItems maxPages hardLimit url? items exc p u = .ok (items1, u1, p1)
        ∧ p1 ≤ maxPages := by
  intro n
  induction n with
  | zero =>
    intro url? items exc p u hp hn
    cases url? with
    | none => exact ⟨items, u, p, by rw [getCompanyChatterLoop], hp⟩
    | some url =>
      refine ⟨items, u, p, ?_, hp⟩
      rw [getCompanyChatterLoop, dif_neg]
      intro hcon
      exact absurd hcon.2.2.2 (by omega)
  | succ n ih =>
    intro url? items exc p u hp hn
    cases url? with
    | none => exact ⟨items, u, p, by rw [getCompanyChatterLoop], hp⟩
    | some url =>
      by_cases hc : url ≠ "" ∧ exc = false ∧ items.length < maxFeedItems ∧ p < maxPages
      · obtain ⟨items1, u1, p1, heq, hle⟩ :=
          ih (fetch (resolveUrl url)).nextPageUrl
            (processItems now maxSeconds maxFeedItems hardLimit
              (fetch (resolveUrl url)).items items exc).1
            (processItems now maxSeconds maxFeedItems hardLimit
              (fetch (resolveUrl url)).items items exc).2
            (p + 1) (if p = 0 then some (fetch (resolveUrl url)).updatesUrl else u)
            (by omega) (by omega)
        refine ⟨items1, u1, p1, ?_, hle⟩
        rw [getCompanyChatterLoop, dif_pos hc]
        exact heq
      · exact ⟨items, u, p, by rw [getCompanyChatterLoop, dif_neg hc], hp⟩

/-- **C7.** For any feed source that answers every page request with a
non-empty next-page link (a feed that never ends), pagination terminates:
the loop returns normally having fetched at most `maxPages` pages. -/
theorem c7_pagination_terminates (fetch : String → SPage)
    (resolveUrl : String → String) (now maxSeconds : Int)
    (maxFeedItems maxPages : Nat) (hardLimit : Bool) (url : String)
    (hfeed : ∀ u, (fetch u).nextPageUrl ≠ none) :
    ∃ items updatesUrl pages,
      getCompanyChatterLoop (fun s => .ok (fetch s)) resolveUrl now maxSeconds
        maxFeedItems maxPages hardLimit (some url) [] false 0 none
        = .ok (items, updatesUrl, pages) ∧ pages ≤ maxPages :=
  getCompanyChatterLoop_pages_le fetch resolveUrl now maxSeconds maxFeedItems maxPages
    hardLimit maxPages (some url) [] false 0 none (Nat.zero_le _) (by omega)

/-- Witness for C7: a feed that always returns another page. -/
theorem c7_pagination_terminates_witness :
    ∃ items updatesUrl pages,
      getCompanyChatterLoop (fun s => .ok ((fun _ => ⟨"u", [], some "n"⟩ :
          String → SPage) s))
        (fun s => s) 0 10 10 3 false (some "start") [] false 0 none
        = .ok (items, updatesUrl, pages) ∧ pages ≤ 3 :=
  c7_pagination_terminates (fun _ => ⟨"u", [], some "n"⟩) (fun s => s) 0 10 10 3
    false "start" (fun u => by simp)

/-! ## C6: a failing page fetch mid-pagination -/

/-- **C6 (amended).** When a page request raises mid-pagination (loop state
with items already collected, all loop conditions allowing another page,
and the fetch of the current url failing), the exception propagates out of
the loop of `getCompanyChatter` unhandled: the call returns the error, the
items collected from earlier pages are not returned to the caller, and the
failed request is not retried. -/
theorem c6_fetch_error_amended (fetch : String → Except String SPage)
    (resolveUrl : String → String) (now maxSeconds : Int)
    (maxFeedItems maxPages : Nat) (hardLimit : Bool) (url : String)
    (items : List SItem) (p : Nat) (u : Option String) (e : String)
    (hurl : url ≠ "") (hitems : items.length < maxFeedItems) (hp : p < maxPages)
    (hfetch : fetch (resolveUrl url) = .error e) :
    getCompanyChatterLoop fetch resolveUrl now maxSeconds maxFeedItems maxPages
      hardLimit (some url) items false p u = .error e := by
  rw [getCompanyChatterLoop, dif_pos ⟨hurl, rfl, hitems, hp⟩, hfetch]

/-- Witness for the amended C6: the very first fetch fails. -/
theorem c6_fetch_error_amended_witness :
    getCompanyChatterLoop (fun _ => .error "ConnectionError") (fun s => s) 0 0 1 1
      false (some "a") [] false 0 none = .error "ConnectionError" :=
  c6_fetch_error_amended (fun _ => .error "ConnectionError") (fun s => s) 0 0 1 1
    false "a" [] 0 none "ConnectionError" (by decide) (by decide) (by decide) rfl

/-- Counterexample to **C6** as stated: the first page succeeds and yields
one item, the second page request raises; `getCompanyChatter` then returns
the error — the item collected from the first page is lost, not "kept and
returned to the caller". -/
theorem c6_prior_pages_counterexample :
    getCompanyChatter
      (fun u => if u = "a" then .ok ⟨"upd", [⟨100, "one"⟩], some "b"⟩
                else .error "ConnectionError")
      (fun s => s) 100 1000 10 5 false "a" = .error "ConnectionError" := by
  unfold getCompanyChatter
  simp [getCompanyChatterLoop, processItems]

/-! ## C8: zero caps -/

/-- **C8 (amended).** Passing 0 for `maxFeedItems` or for `maxPages` makes
`getCompanyChatter` fetch nothing (empty items, no cursor), for every feed
source.  Passing 0 for `maxSeconds` does not: the age cutoff is only
examined after a page has been fetched, so the first page is still
retrieved (see the counterexample). -/
theorem c8_zero_caps_amended (fetch : String → Except String SPage)
    (resolveUrl : String → String) (now maxSeconds : Int)
    (maxFeedItems maxPages : Nat) (hardLimit : Bool) (url : String) :
    getCompanyChatter fetch resolveUrl now maxSeconds 0 maxPages hardLimit url
      = .ok ([], none)
    ∧ getCompanyChatter fetch resolveUrl now maxSeconds maxFeedItems 0 hardLimit url
      = .ok ([], none) := by
  constructor <;>
  · unfold getCompanyChatter
    rw [getCompanyChatterLoop, dif_neg (by simp)]

/-- Counterexample to **C8** as stated: with `maxSeconds = 0` (and the
other caps positive) the paginator still fetches the first page and
returns its item — the item list is not empty. -/
theorem c8_maxseconds_zero_counterexample :
    getCompanyChatter (fun _ => .ok ⟨"upd", [⟨100, "x"⟩], none⟩) (fun s => s)
      100 0 10 5 false "start" = .ok ([⟨100, "x"⟩], some "upd") := by
  unfold getCompanyChatter
  simp [getCompanyChatterLoop, processItems]

/-! ## s2f.postNewAndModifiedOpportunities (src/s2f/s2f.py lines 196-245)
and s2f.postNewActivity (lines 270-287)

File I/O and the message sink are made explicit: the initial
`json.load` of the opportunities file is a `CacheLoad` value
(`.failed` covering both `FileNotFoundError` and `ValueError`); the
SalesForce fetch inside `getOpportunityChanges` is the `incoming`
parameter as before; the chatter details fetched by
`postOpportunitiesChatter` are an opaque list; posted messages are
collected in order (message formatting and the per-item try/except around
`postToInbox` do not affect which messages are attempted, so messages are
recorded as tagged payloads). -/

/-- Result of the initial `json.load` of the opportunities file:
the decoded entity list, or `FileNotFoundError`/`ValueError`. -/
inductive CacheLoad where
  | loaded (ops : List Entity) : CacheLoad
  | failed : CacheLoad
deriving DecidableEq, Repr

/-- A message given to the sink: a new-opportunity inbox post, a
changed-opportunity inbox post (formatted from the old and new records),
or a chatter-item inbox post. -/
inductive Msg where
  | newOp (op : Entity) : Msg
  | changedOp (oldOp newOp : Entity) : Msg
  | chatter (item : String) : Msg
deriving DecidableEq, Repr

/-- What a run leaves behind: the entity list written to the
opportunities file, and the messages posted to the sink, in order. -/
structure PostRunResult where
  savedOps : List Entity
  posted : List Msg
deriving DecidableEq, Repr

/-- `postNewAndModifiedOpportunities`: read the cache file (`skipFlowdock`
and empty cache on failure), run `getOpportunityChanges`, always save the
merged result, then — unless posting is suppressed — post each new
opportunity and each changed opportunity whose id was in the old cache
(a changed id missing from the old cache is logged and skipped). -/
def postNewAndModifiedOpportunities (load : CacheLoad) (incoming : List Entity)
    (maxTeamItems : Option Int) : Except String PostRunResult :=
  let skipFlowdock := match load with | .failed => true | .loaded _ => false
  let knownList := match load with | .failed => [] | .loaded l => l
  let knownOps := dictOfOps knownList
  match getOpportunityChanges knownOps incoming maxTeamItems with
  | .error e => .error e
  | .ok (allOps, newOps, changedOps) =>
    if skipFlowdock then .ok ⟨allOps, []⟩
    else
      let newMsgs := newOps.map Msg.newOp
      let changedMsgs := changedOps.filterMap fun op =>
        match dictGet knownOps op.Id with
        | none => none
        | some oldOp => some (Msg.changedOp oldOp op)
      .ok ⟨allOps, newMsgs ++ changedMsgs⟩

/-- `postNewActivity`: run `postNewAndModifiedOpportunities`, then
`postOpportunitiesChatter`, which posts one inbox message per chatter
detail item regardless of how the opportunities phase went. -/
def postNewActivity (load : CacheLoad) (incoming : List Entity)
    (maxTeamItems : Option Int) (chatterDetails : List String) :
    Except String PostRunResult :=
  match postNewAndModifiedOpportunities load incoming maxTeamItems with
  | .error e => .error e
  | .ok r => .ok ⟨r.savedOps, r.posted ++ chatterDetails.map Msg.chatter⟩

/-- Counterexample to **C5** as stated: when the initial cache load fails,
the run still posts the chatter items — posting is not suppressed
"entirely for that run".  Here the cache file is corrupt, there are no
opportunities at all, yet one chatter message reaches the sink. -/
theorem c5_chatter_still_posted_counterexample :
    postNewActivity .failed [] (some 5) ["chatter-item"]
      = .ok ⟨[], [Msg.chatter "chatter-item"]⟩
    ∧ [Msg.chatter "chatter-item"] ≠ ([] : List Msg) := by
  exact ⟨rfl, by simp⟩

/-- **C5 (amended).** If the initial load of the opportunities cache fails,
the run proceeds treating the cache as empty, still persists the newly
fetched merged state, and suppresses the posting of new and changed
opportunities for that run — but only that phase: the chatter phase still
posts its items, so the sink receives exactly the chatter messages. -/
theorem c5_failed_load_amended (incoming : List Entity) (k : Int)
    (chatterDetails : List String) :
    postNewActivity .failed incoming (some k) chatterDetails
      = .ok ⟨dictValues (detectCore k incoming ⟨[], fun _ => 0, [], []⟩).allOps,
             chatterDetails.map Msg.chatter⟩ := by
  unfold postNewActivity postNewAndModifiedOpportunities getOpportunityChanges
  simp only [detectLoopE_some]
  rfl

end S2F
